import Mathlib

/-
Verification development for the lunch-lotto popup (src/popup.js).

The program is a browser extension that fetches nearby restaurants,
normalizes them into candidate records, filters them by price, removes
duplicate names, builds a wheel of at most 8 options by a random shuffle,
and keeps a bounded history of past picks.

Numbers handled by the program are JavaScript doubles; here they are
modelled by Rat (for coordinates and the mile-to-meter conversion) and by
Option Int for the price-level computation, where none stands for NaN.
Strings are modelled by String, arrays by List.
-/

namespace LunchLotto

/- JavaScript string and number primitives used by popup.js.
   These model the host-language builtins the source calls:
   isNaN coercion via Number, parseInt, String.prototype.includes,
   String.prototype.split counting, and String.prototype.repeat. -/

/-- Whitespace characters trimmed by the JavaScript number conversions
(the common subset: space, tab, newline, carriage return). -/
def isJsWhitespace (c : Char) : Bool :=
  c = ' ' || c = '\t' || c = '\n' || c = '\r'

/-- Strip leading and trailing JavaScript whitespace from a character list. -/
def trimJsWs (l : List Char) : List Char :=
  ((l.dropWhile isJsWhitespace).reverse.dropWhile isJsWhitespace).reverse

/-- Hexadecimal digit test, as used by the 0x literal forms. -/
def isHexDigitChar (c : Char) : Bool :=
  c.isDigit || ('a' ≤ c && c ≤ 'f') || ('A' ≤ c && c ≤ 'F')

/-- Recognizer for an optional exponent part at the end of a decimal
literal: either the end of input, or e or E, an optional sign, and at
least one digit consuming the rest. -/
def expTailOk : List Char → Bool
  | [] => true
  | c :: rest =>
    (c = 'e' || c = 'E') &&
      (let r2 := match rest with
        | s :: r3 => if s = '+' || s = '-' then r3 else s :: r3
        | [] => []
       let ds := r2.takeWhile (fun d => d.isDigit)
       let r4 := r2.dropWhile (fun d => d.isDigit)
       (!ds.isEmpty) && r4.isEmpty)

/-- Recognizer for an unsigned decimal literal of the JavaScript
StringNumericLiteral grammar: digits with an optional fraction and
exponent, or a fraction starting with a dot. -/
def unsignedDecOk (l : List Char) : Bool :=
  let ds := l.takeWhile (fun d => d.isDigit)
  let r := l.dropWhile (fun d => d.isDigit)
  if ds.isEmpty then
    match r with
    | '.' :: r2 =>
      let ds2 := r2.takeWhile (fun d => d.isDigit)
      let r3 := r2.dropWhile (fun d => d.isDigit)
      (!ds2.isEmpty) && expTailOk r3
    | _ => false
  else
    match r with
    | '.' :: r2 => expTailOk (r2.dropWhile (fun d => d.isDigit))
    | _ => expTailOk r

/-- Recognizer for the non-decimal integer literal forms 0x, 0b, 0o
accepted by Number. -/
def nonDecimalOk (l : List Char) : Bool :=
  match l with
  | '0' :: c :: rest =>
    if c = 'x' || c = 'X' then (!rest.isEmpty) && rest.all isHexDigitChar
    else if c = 'b' || c = 'B' then (!rest.isEmpty) && rest.all (fun d => d = '0' || d = '1')
    else if c = 'o' || c = 'O' then (!rest.isEmpty) && rest.all (fun d => '0' ≤ d && d ≤ '7')
    else false
  | _ => false

/-- Model of the test !isNaN(s) from popup.js line 105: true exactly when
the JavaScript conversion Number(s) does not yield NaN.  Per the
StringNumericLiteral grammar this holds for the empty or all-whitespace
string (Number gives 0), for optionally signed decimal literals and
Infinity, and for unsigned 0x, 0b, 0o literals. -/
def jsIsNumeric (s : String) : Bool :=
  let l := trimJsWs s.toList
  if l.isEmpty then true
  else if nonDecimalOk l then true
  else
    let l2 := match l with
      | c :: r => if c = '+' || c = '-' then r else c :: r
      | [] => []
    (l2 == "Infinity".toList) || unsignedDecOk l2

/-- Numeric value of a nonempty decimal digit sequence. -/
def decValue (ds : List Char) : Nat :=
  ds.foldl (fun acc c => acc * 10 + (c.toNat - '0'.toNat)) 0

/-- Numeric value of one hexadecimal digit. -/
def hexDigitVal (c : Char) : Nat :=
  if c.isDigit then c.toNat - '0'.toNat
  else if 'a' ≤ c && c ≤ 'f' then c.toNat - 'a'.toNat + 10
  else c.toNat - 'A'.toNat + 10

/-- Numeric value of a nonempty hexadecimal digit sequence. -/
def hexValue (ds : List Char) : Nat :=
  ds.foldl (fun acc c => acc * 16 + hexDigitVal c) 0

/-- Model of JavaScript parseInt(s) with no radix argument, as called at
popup.js line 106: skip leading whitespace, read an optional sign, then
either a 0x or 0X prefix followed by hexadecimal digits, or a run of
decimal digits; none models the NaN result when no digit can be read. -/
def jsParseInt (s : String) : Option Int :=
  let l := s.toList.dropWhile isJsWhitespace
  let sgn : Int := match l with
    | '-' :: _ => -1
    | _ => 1
  let l2 : List Char := match l with
    | '-' :: r => r
    | '+' :: r => r
    | _ => l
  match l2 with
  | '0' :: c :: rest =>
    if c = 'x' || c = 'X' then
      let hs := rest.takeWhile isHexDigitChar
      if hs.isEmpty then none else some (sgn * (hexValue hs : Int))
    else
      some (sgn * (decValue (l2.takeWhile (fun d => d.isDigit)) : Int))
  | _ =>
    let ds := l2.takeWhile (fun d => d.isDigit)
    if ds.isEmpty then none else some (sgn * (decValue ds : Int))

/- Data model: the candidate record built in fetchRestaurants
   (popup.js lines 120 to 132), the wheel option record pushed in
   updateWheel and addRestaurantToWheel, the history entry built in
   saveToHistory, and the settings record of lines 1 to 5. -/

/-- Candidate restaurant record as built at popup.js lines 120 to 132.
Coordinates are modelled by Rat in place of JavaScript doubles; the price
field holds the dollar-sign string produced at line 113. -/
structure Restaurant where
  name : String
  distance : String
  price : String
  lat : Rat
  lng : Rat
  osmId : Int
  osmType : String
  osmUrl : String
  mapUrl : String
deriving DecidableEq, Repr

/-- Wheel option as pushed into the global options array at popup.js
lines 192 to 195 and 357 to 360: only the name and the map link. -/
structure WheelOption where
  name : String
  mapUrl : String
deriving DecidableEq, Repr

/-- History entry as built at popup.js lines 275 to 278: all fields of
the restaurant (the object spread) plus one added timestamp field.  The
spread is modelled by embedding the whole restaurant record. -/
structure HistoryEntry where
  restaurant : Restaurant
  timestamp : String
deriving DecidableEq, Repr

/-- User settings of popup.js lines 1 to 5: search radius in miles,
price range as a comma-separated string, and the inert dietary filter.
An absent price value (undefined, falsy) is modelled by the empty
string, which is also falsy. -/
structure Settings where
  distance : Rat
  price : String
  dietary : String
deriving DecidableEq, Repr

/-- Default settings object of popup.js lines 1 to 5. -/
def defaultSettings : Settings :=
  { distance := 0.5, price := "2,3", dietary := "" }

/-- Mile to meter conversion of popup.js lines 9 to 11. -/
def milesToMeters (miles : Rat) : Rat :=
  miles * 1609.34

/-- Radius in meters computed at popup.js line 33 and interpolated into
the Overpass query of lines 37 to 47. -/
def queryRadius (s : Settings) : Rat :=
  milesToMeters s.distance

/-- Price level normalization of popup.js lines 97 to 110, applied to
the optional price tag of a raw element.  none models the absent tag;
on the value side, none models NaN: Math.max and Math.min propagate NaN,
so the clamp is modelled by Option.map.  The count for a tag containing
a dollar sign is split on the dollar sign, length minus 1, which equals
the number of dollar-sign occurrences. -/
def normalizePriceLevel (priceTag : Option String) : Option Int :=
  match priceTag with
  | none => some 2
  | some p =>
    if p = "" then some 2
    else
      let pl : Option Int :=
        if p.toList.contains '$' then
          some ((p.toList.filter (fun c => c = '$')).length : Int)
        else if jsIsNumeric p then jsParseInt p
        else some 2
      pl.map (fun x => min (max x 1) 4)

/-- Dollar-sign representation of popup.js lines 112 to 113: repeat of
the dollar sign priceLevel times.  String.prototype.repeat coerces NaN
to 0, giving the empty string; a negative count cannot reach this call
because the clamp bounds any non-NaN value below by 1. -/
def dollarSign (pl : Option Int) : String :=
  match pl with
  | none => ""
  | some n => String.mk (List.replicate n.toNat '$')

/-- Price level of a candidate as the price filter reads it at popup.js
line 139: the length of the dollar-sign string. -/
def Restaurant.priceLevel (r : Restaurant) : Nat :=
  r.price.length

/-- Model of the JavaScript conversion Number applied at popup.js line
137 to the pieces of the price setting, restricted to the
optionally signed decimal integer strings that the min,max setting
encoding uses: whitespace is trimmed, then an optional sign and a
nonempty all-digit remainder; every other string is mapped to none
(NaN), which makes both filter comparisons false just as NaN does. -/
def jsNumberInt (s : String) : Option Int :=
  let l := trimJsWs s.toList
  let sgn : Int := match l with
    | '-' :: _ => -1
    | _ => 1
  let l2 : List Char := match l with
    | '-' :: r => r
    | '+' :: r => r
    | _ => l
  if l2.isEmpty then none
  else if l2.all (fun d => d.isDigit) then some (sgn * (decValue l2 : Int))
  else none

/-- JavaScript comparison of two numbers that may be NaN or undefined
(both modelled by none): any comparison involving them is false. -/
def jsLeOpt (a b : Option Int) : Bool :=
  match a, b with
  | some x, some y => decide (x ≤ y)
  | _, _ => false

/-- Model of String.prototype.split with a one-character separator:
splitting the empty string gives one empty piece, and every separator
occurrence starts a new piece. -/
def splitOnChar (sep : Char) : List Char → List (List Char)
  | [] => [[]]
  | c :: rest =>
    match splitOnChar sep rest with
    | [] => [[c]]
    | g :: gs => if c = sep then [] :: g :: gs else (c :: g) :: gs

/-- The pieces of the price setting after split on the comma and the
per-piece Number conversion of popup.js line 137. -/
def jsSplitCommaNums (ps : String) : List (Option Int) :=
  (splitOnChar ',' ps.toList).map (fun cs => jsNumberInt (String.mk cs))

/-- Price filter of popup.js lines 136 to 142: skipped when the price
setting is falsy (here the empty string); otherwise the setting is split
on the comma, each piece converted by Number, the first two entries
destructured as minPrice and maxPrice (a missing entry is undefined,
modelled by none), and a candidate is kept when its dollar-string length
lies between them, both comparisons inclusive. -/
def filterByPrice (ps : String) (rs : List Restaurant) : List Restaurant :=
  if ps = "" then rs
  else
    let nums := jsSplitCommaNums ps
    let minP := nums[0]?.join
    let maxP := nums[1]?.join
    rs.filter (fun r =>
      jsLeOpt minP (some (r.price.length : Int)) &&
      jsLeOpt (some (r.price.length : Int)) maxP)

/-- Name deduplication of popup.js lines 144 to 152: the filter callback
keeps a candidate when its name is not yet in the seen set and adds the
name as a side effect.  The Set of names is modelled by a list threaded
through the recursion; membership is the same by-value string equality. -/
def dedupByName (seen : List String) : List Restaurant → List Restaurant
  | [] => []
  | r :: rs =>
    if r.name ∈ seen then dedupByName seen rs
    else r :: dedupByName (r.name :: seen) rs

/-- Deduplication pass exactly as the source runs it, with an initially
empty seen set. -/
def dedupRestaurants (rs : List Restaurant) : List Restaurant :=
  dedupByName [] rs

/-- Deduplication as the specification words it: keep the first
occurrence of each name in original order and drop every later candidate
carrying a previously seen name.  Stated as a second definition to be
compared with dedupRestaurants, the one read off the source. -/
def dedupFirstOcc : List Restaurant → List Restaurant
  | [] => []
  | r :: rs => r :: dedupFirstOcc (rs.filter (fun x => decide (x.name ≠ r.name)))
termination_by l => l.length
decreasing_by
  simp only [List.length_cons]
  exact Nat.lt_succ_of_le (List.length_filter_le _ _)

/- The wheel.  popup.js line 186 shuffles with
   sort with the comparator returning Math.random() - 0.5.  ECMA-262
   leaves the result of sort implementation defined when the comparator
   is inconsistent, as this one is; engines run a comparison sort that
   consumes one comparator outcome per comparison.  The model below is
   an insertion sort (the algorithm engines use on short arrays)
   consuming a stream of comparator outcomes, where true stands for a
   negative comparator value, an event of probability one half since
   Math.random() is uniform on the 53-bit dyadics of the unit interval.
   Enumerating all outcome streams of a fixed length therefore gives the
   exact distribution of the produced permutation. -/

/-- Insert one element into an already sorted list, consuming one
comparator outcome per comparison: outcome true places the element
before the inspected position. -/
def insertRand {α : Type} (e : α) : List α → List Bool → List α × List Bool
  | [], cs => ([e], cs)
  | x :: xs, true :: cs => (e :: x :: xs, cs)
  | x :: xs, false :: cs =>
    let p := insertRand e xs cs
    (x :: p.1, p.2)
  | x :: xs, [] =>
    let p := insertRand e xs []
    (x :: p.1, p.2)

/-- Insertion sort driven by a stream of comparator outcomes, returning
the sorted list and the unconsumed rest of the stream. -/
def sortRand {α : Type} : List α → List Bool → List α × List Bool
  | [], cs => ([], cs)
  | x :: xs, cs =>
    let p := sortRand xs cs
    insertRand x p.1 p.2

/-- The shuffle of popup.js line 186: sort of a copy of the array under
the random comparator, modelled by the outcome-stream insertion sort. -/
def jsShuffle {α : Type} (l : List α) (coins : List Bool) : List α :=
  (sortRand l coins).1

/-- All comparator outcome streams of a given length, each equally
likely when the comparator sign is a fair coin. -/
def boolLists : Nat → List (List Bool)
  | 0 => [[]]
  | n + 1 => (boolLists n).map (fun cs => true :: cs) ++ (boolLists n).map (fun cs => false :: cs)

/-- Number of outcome streams of length n under which the shuffle of a
given list produces a given target list.  Dividing by 2 to the n gives
the probability of that permutation. -/
def shuffleCount (n : Nat) (l target : List Nat) : Nat :=
  ((boolLists n).filter (fun cs => decide (jsShuffle l cs = target))).length

/-- Projection applied when candidates are pushed onto the wheel at
popup.js lines 192 to 195 and 357 to 360: only name and mapUrl. -/
def wheelProj (r : Restaurant) : WheelOption :=
  { name := r.name, mapUrl := r.mapUrl }

/-- updateWheel of popup.js lines 182 to 210: clear the options array,
shuffle the candidates, take the first 8, and push their projections.
The net effect on the options array is the returned list. -/
def updateWheel (rs : List Restaurant) (coins : List Bool) : List WheelOption :=
  ((jsShuffle rs coins).take 8).map wheelProj

/-- addRestaurantToWheel of popup.js lines 352 to 364: when the wheel
already holds 8 or more options, pop removes the last one; then the
projection of the new restaurant is pushed at the end. -/
def addRestaurantToWheel (opts : List WheelOption) (r : Restaurant) : List WheelOption :=
  (if opts.length ≥ 8 then opts.dropLast else opts) ++ [wheelProj r]

/-- History entry construction of popup.js lines 275 to 278: the spread
of the restaurant plus the current timestamp. -/
def mkHistoryEntry (r : Restaurant) (ts : String) : HistoryEntry :=
  { restaurant := r, timestamp := ts }

/-- saveToHistory of popup.js lines 274 to 287: unshift the timestamped
entry, then slice to the first 20 entries when the length exceeds 20. -/
def saveToHistory (r : Restaurant) (ts : String) (hist : List HistoryEntry) : List HistoryEntry :=
  let h2 := mkHistoryEntry r ts :: hist
  if h2.length > 20 then h2.take 20 else h2

/-- Indexed read of the history log, as restaurantHistory with index is
read at popup.js lines 324 and 341. -/
def historyGet (hist : List HistoryEntry) (i : Nat) : Option HistoryEntry :=
  hist[i]?

/-- A sequence of saveToHistory calls, oldest first, applied to an
initial log state. -/
def appendAll (init : List HistoryEntry) (ps : List (Restaurant × String)) : List HistoryEntry :=
  ps.foldl (fun acc p => saveToHistory p.1 p.2 acc) init

/- Concrete records used by the witness theorems. -/

/-- Sample candidate with price level 2. -/
def sampleRestaurantA : Restaurant :=
  { name := "A", distance := "0.5", price := "$$", lat := 0, lng := 0,
    osmId := 1, osmType := "node", osmUrl := "a", mapUrl := "ma" }

/-- Sample candidate with price level 4. -/
def sampleRestaurantB : Restaurant :=
  { name := "B", distance := "0.5", price := "$$$$", lat := 0, lng := 0,
    osmId := 2, osmType := "node", osmUrl := "b", mapUrl := "mb" }

/-- A full wheel of 8 options. -/
def fullWheel : List WheelOption :=
  [⟨"w1", "u1"⟩, ⟨"w2", "u2"⟩, ⟨"w3", "u3"⟩, ⟨"w4", "u4"⟩,
   ⟨"w5", "u5"⟩, ⟨"w6", "u6"⟩, ⟨"w7", "u7"⟩, ⟨"w8", "u8"⟩]

/- Helper lemmas. -/

/-- Inserting with the randomized comparator produces a permutation of
the element consed onto the list, whatever the outcome stream. -/
lemma insertRand_perm {α : Type} (e : α) :
    ∀ (l : List α) (cs : List Bool), (insertRand e l cs).1.Perm (e :: l) := by
  intro l
  induction l with
  | nil => intro cs; simp [insertRand]
  | cons x xs ih =>
    intro cs
    match cs with
    | [] =>
      simp only [insertRand]
      exact ((ih []).cons x).trans (List.Perm.swap e x xs)
    | true :: cs' =>
      simp [insertRand]
    | false :: cs' =>
      simp only [insertRand]
      exact ((ih cs').cons x).trans (List.Perm.swap e x xs)

/-- The randomized comparator sort produces a permutation of its input,
whatever the outcome stream. -/
lemma sortRand_perm {α : Type} :
    ∀ (l : List α) (cs : List Bool), (sortRand l cs).1.Perm l := by
  intro l
  induction l with
  | nil => intro cs; simp [sortRand]
  | cons x xs ih =>
    intro cs
    simp only [sortRand]
    exact (insertRand_perm x _ _).trans ((ih cs).cons x)

/-- The shuffle of line 186 permutes the candidate list. -/
lemma jsShuffle_perm {α : Type} (l : List α) (cs : List Bool) :
    (jsShuffle l cs).Perm l :=
  sortRand_perm l cs

/-- Filtering first by names outside the seen set and then by names
different from n is one filter by names outside n consed onto seen. -/
lemma filter_name_notin_cons (n : String) (seen : List String) :
    ∀ (l : List Restaurant),
      (l.filter (fun x => decide (x.name ∉ seen))).filter (fun x => decide (x.name ≠ n)) =
        l.filter (fun x => decide (x.name ∉ n :: seen)) := by
  intro l
  induction l with
  | nil => rfl
  | cons r rs ih =>
    by_cases h1 : r.name ∈ seen
    · have hi : ¬ (decide (r.name ∉ seen) = true) := by simp [h1]
      have hr : ¬ (decide (r.name ∉ n :: seen) = true) := by simp [List.mem_cons, h1]
      rw [@List.filter_cons_of_neg Restaurant (fun x => decide (x.name ∉ seen)) r rs hi,
        @List.filter_cons_of_neg Restaurant (fun x => decide (x.name ∉ n :: seen)) r rs hr]
      exact ih
    · have hi : decide (r.name ∉ seen) = true := by simp [h1]
      rw [@List.filter_cons_of_pos Restaurant (fun x => decide (x.name ∉ seen)) r rs hi]
      by_cases h2 : r.name = n
      · have ho : ¬ (decide (r.name ≠ n) = true) := by simp [h2]
        have hr : ¬ (decide (r.name ∉ n :: seen) = true) := by simp [List.mem_cons, h2]
        rw [@List.filter_cons_of_neg Restaurant (fun x => decide (x.name ≠ n)) r _ ho,
          @List.filter_cons_of_neg Restaurant (fun x => decide (x.name ∉ n :: seen)) r rs hr]
        exact ih
      · have ho : decide (r.name ≠ n) = true := by simp [h2]
        have hr : decide (r.name ∉ n :: seen) = true := by simp [List.mem_cons, h2, h1]
        rw [@List.filter_cons_of_pos Restaurant (fun x => decide (x.name ≠ n)) r _ ho,
          @List.filter_cons_of_pos Restaurant (fun x => decide (x.name ∉ n :: seen)) r rs hr,
          ih]

/-- Empty-list case of the specification-side deduplication. -/
lemma dedupFirstOcc_nil : dedupFirstOcc [] = [] := by
  rw [dedupFirstOcc.eq_def]

/-- One-step unfolding of the specification-side deduplication. -/
lemma dedupFirstOcc_cons (r : Restaurant) (l : List Restaurant) :
    dedupFirstOcc (r :: l) =
      r :: dedupFirstOcc (l.filter (fun x => decide (x.name ≠ r.name))) := by
  rw [dedupFirstOcc.eq_def]

/-- The seen-set recursion of the source equals the specification-side
deduplication of the list with already-seen names filtered away. -/
lemma dedupByName_eq_firstOcc :
    ∀ (l : List Restaurant) (seen : List String),
      dedupByName seen l = dedupFirstOcc (l.filter (fun x => decide (x.name ∉ seen))) := by
  intro l
  induction l with
  | nil => intro seen; exact dedupFirstOcc_nil.symm
  | cons r rs ih =>
    intro seen
    by_cases h : r.name ∈ seen
    · have hi : ¬ (decide (r.name ∉ seen) = true) := by simp [h]
      simp only [dedupByName, if_pos h]
      rw [@List.filter_cons_of_neg Restaurant (fun x => decide (x.name ∉ seen)) r rs hi]
      exact ih seen
    · have hi : decide (r.name ∉ seen) = true := by simp [h]
      simp only [dedupByName, if_neg h]
      rw [@List.filter_cons_of_pos Restaurant (fun x => decide (x.name ∉ seen)) r rs hi,
        dedupFirstOcc_cons, ih (r.name :: seen), filter_name_notin_cons]

/-- The seen-set recursion yields a sublist of its input, hence the
output order is the relative order in the input. -/
lemma dedupByName_sublist :
    ∀ (l : List Restaurant) (seen : List String),
      List.Sublist (dedupByName seen l) l := by
  intro l
  induction l with
  | nil => intro seen; exact List.Sublist.refl []
  | cons r rs ih =>
    intro seen
    by_cases h : r.name ∈ seen
    · simp only [dedupByName, if_pos h]
      exact (ih seen).cons r
    · simp only [dedupByName, if_neg h]
      exact (ih (r.name :: seen)).cons₂ r

/-- One saveToHistory call is exactly prepend then keep the first 20. -/
lemma saveToHistory_eq_take (r : Restaurant) (ts : String) (hist : List HistoryEntry) :
    saveToHistory r ts hist = (mkHistoryEntry r ts :: hist).take 20 := by
  unfold saveToHistory
  by_cases h : (mkHistoryEntry r ts :: hist).length > 20
  · simp [h]
  · simp only [h, if_false]
    exact (List.take_of_length_le (Nat.le_of_not_lt h)).symm

/-- Any single saveToHistory call leaves at most 20 entries. -/
lemma saveToHistory_length_le (r : Restaurant) (ts : String) (hist : List HistoryEntry) :
    (saveToHistory r ts hist).length ≤ 20 := by
  rw [saveToHistory_eq_take, List.length_take]
  exact Nat.min_le_left _ _

/-- The entry just saved is at the front of the log. -/
lemma saveToHistory_head (r : Restaurant) (ts : String) (hist : List HistoryEntry) :
    (saveToHistory r ts hist).head? = some (mkHistoryEntry r ts) := by
  rw [saveToHistory_eq_take]
  rfl

/-- After a nonempty sequence of saves the log is bounded by 20 and the
last saved pair sits at the front. -/
lemma appendAll_spec :
    ∀ (ps : List (Restaurant × String)) (init : List HistoryEntry), ps ≠ [] →
      (appendAll init ps).length ≤ 20 ∧
      (appendAll init ps).head? = ps.getLast?.map (fun p => mkHistoryEntry p.1 p.2) := by
  intro ps
  induction ps with
  | nil => intro init h; exact absurd rfl h
  | cons p ps ih =>
    intro init _
    cases ps with
    | nil =>
      refine ⟨saveToHistory_length_le p.1 p.2 init, ?_⟩
      show (saveToHistory p.1 p.2 init).head? = _
      rw [saveToHistory_head]
      rfl
    | cons q qs =>
      have h2 : appendAll init (p :: q :: qs) = appendAll (saveToHistory p.1 p.2 init) (q :: qs) := rfl
      have h3 := ih (saveToHistory p.1 p.2 init) (List.cons_ne_nil _ _)
      rw [h2, List.getLast?_cons_cons]
      exact h3

/-- Whenever the normalization yields a number at all, the clamp puts it
into the range 1 to 4; the only other possible outcome is NaN. -/
lemma normalizePriceLevel_in_range_or_nan (tag : Option String) :
    normalizePriceLevel tag = none ∨
      ∃ n, normalizePriceLevel tag = some n ∧ 1 ≤ n ∧ n ≤ 4 := by
  cases tag with
  | none => exact Or.inr ⟨2, rfl, by norm_num, by norm_num⟩
  | some p =>
    by_cases hp : p = ""
    · subst hp
      exact Or.inr ⟨2, rfl, by norm_num, by norm_num⟩
    · simp only [normalizePriceLevel, if_neg hp]
      cases hpl : (if p.toList.contains '$' then
          some ((p.toList.filter (fun c => c = '$')).length : Int)
        else if jsIsNumeric p then jsParseInt p
        else some 2) with
      | none => exact Or.inl rfl
      | some x =>
        refine Or.inr ⟨min (max x 1) 4, rfl, ?_, ?_⟩
        · exact le_min (le_max_right x 1) (by norm_num)
        · exact min_le_right _ _

/- Claim theorems. -/

/-- C1: the claim states that for every raw record the normalized
priceLevel is an integer in the range 1 to 4 (dollar count clamped,
parsed integer clamped, or the default 2).  The code violates this: a
price tag that passes the isNaN test but gives parseInt nothing to read,
such as .5, Infinity, or a single space, makes parseInt return NaN,
which passes through the Math.min and Math.max clamp unchanged, so the
priceLevel of that record is NaN and not an integer in the range. -/
theorem normalizePriceLevel_nan_escapes :
    normalizePriceLevel (some ".5") = none ∧
    normalizePriceLevel (some "Infinity") = none ∧
    normalizePriceLevel (some " ") = none := by
  refine ⟨?_, ?_, ?_⟩ <;> rfl

/-- C2: updateWheel over a candidate list of length N produces exactly
min N 8 options, each the projection of some candidate to name and
mapUrl, and over the empty candidate list it produces no options;
whatever permutation the implementation-defined sort produces, it keeps
the length, so the count is independent of the comparator outcomes. -/
theorem updateWheel_options_spec (rs : List Restaurant) (coins : List Bool) :
    (updateWheel rs coins).length = min rs.length 8 ∧
    (∀ o ∈ updateWheel rs coins, ∃ r ∈ rs, o = wheelProj r) ∧
    updateWheel ([] : List Restaurant) coins = [] := by
  refine ⟨?_, ?_, rfl⟩
  · unfold updateWheel
    rw [List.length_map, List.length_take, (jsShuffle_perm rs coins).length_eq, Nat.min_comm]
  · intro o ho
    unfold updateWheel at ho
    rcases List.mem_map.1 ho with ⟨r, hr, rfl⟩
    exact ⟨r, (jsShuffle_perm rs coins).mem_iff.1 (List.mem_of_mem_take hr), rfl⟩

/-- Witness for C2 at a concrete one-candidate list and empty outcome
stream. -/
theorem updateWheel_options_spec_w :
    (updateWheel [sampleRestaurantA] []).length = min 1 8 := by
  have h := (updateWheel_options_spec [sampleRestaurantA] []).1
  simpa using h

/-- C3: the claim states the shuffle used by updateWheel is uniform,
every permutation of the candidate list being equally likely.  Counting
comparator outcome streams refutes it for a three-element list: under
the fair-coin comparator sign, the identity permutation is produced by
2 of the 8 equally likely outcome streams while the transposition of
the first two elements is produced by only 1, so the two permutations
do not have equal probability. -/
theorem jsShuffle_not_uniform :
    List.Perm [1, 2, 3] [2, 1, 3] ∧
    shuffleCount 3 [1, 2, 3] [1, 2, 3] = 2 ∧
    shuffleCount 3 [1, 2, 3] [2, 1, 3] = 1 :=
  ⟨List.Perm.swap 2 1 [3], by decide, by decide⟩

/-- C4: after any nonempty sequence of append calls the history log has
at most 20 entries and the most recently appended entry is at index 0;
moreover every single append is exactly prepend-then-truncate to the
first 20 entries. -/
theorem saveToHistory_bounded (init : List HistoryEntry)
    (ps : List (Restaurant × String)) (h : ps ≠ []) :
    (appendAll init ps).length ≤ 20 ∧
    (appendAll init ps).head? = ps.getLast?.map (fun p => mkHistoryEntry p.1 p.2) ∧
    (∀ (r : Restaurant) (ts : String) (hist : List HistoryEntry),
      saveToHistory r ts hist = (mkHistoryEntry r ts :: hist).take 20) :=
  ⟨(appendAll_spec ps init h).1, (appendAll_spec ps init h).2,
    fun r ts hist => saveToHistory_eq_take r ts hist⟩

/-- Witness for C4: one concrete append to the empty log. -/
theorem saveToHistory_bounded_w :
    (appendAll [] [(sampleRestaurantA, "t1")]).length ≤ 20 ∧
    (appendAll [] [(sampleRestaurantA, "t1")]).head? =
      [(sampleRestaurantA, "t1")].getLast?.map (fun p => mkHistoryEntry p.1 p.2) := by
  have h := saveToHistory_bounded [] [(sampleRestaurantA, "t1")] (List.cons_ne_nil _ _)
  exact ⟨h.1, h.2.1⟩

/-- C5: with an empty (or absent, equally falsy) price setting the
filter pass is skipped and every candidate is kept; with a setting that
splits and parses to the bounds mn and mx, the filter keeps exactly the
candidates whose price level lies between mn and mx, both bounds
inclusive. -/
theorem filterByPrice_spec (ps : String) (mn mx : Int) (rs : List Restaurant) :
    (ps = "" → filterByPrice ps rs = rs) ∧
    (ps ≠ "" → (jsSplitCommaNums ps)[0]?.join = some mn →
      (jsSplitCommaNums ps)[1]?.join = some mx →
      filterByPrice ps rs =
        rs.filter (fun r =>
          decide (mn ≤ (r.priceLevel : Int)) && decide ((r.priceLevel : Int) ≤ mx))) := by
  constructor
  · intro h
    simp [filterByPrice, h]
  · intro hne h0 h1
    simp only [filterByPrice, if_neg hne, h0, h1, jsLeOpt, Restaurant.priceLevel]

/-- Witness for C5: the default range 2,3 keeps the price-2 candidate
and drops the price-4 candidate. -/
theorem filterByPrice_spec_w :
    filterByPrice "2,3" [sampleRestaurantA, sampleRestaurantB] = [sampleRestaurantA] := by
  have h := (filterByPrice_spec "2,3" 2 3 [sampleRestaurantA, sampleRestaurantB]).2
    (by decide) (by decide) (by decide)
  rw [h]
  decide

/-- C6: the deduplication pass keeps exactly the first occurrence of
each name in original order and drops every later candidate with a
previously seen name: it equals the specification-side first-occurrence
recursion, and it is a sublist of the input, so the output order is the
first-seen order of the survivors. -/
theorem dedupRestaurants_firstOcc (l : List Restaurant) :
    dedupRestaurants l = dedupFirstOcc l ∧
    List.Sublist (dedupRestaurants l) l := by
  constructor
  · have h := dedupByName_eq_firstOcc l []
    simpa [dedupRestaurants] using h
  · exact dedupByName_sublist l []

/-- C7: adding to a wheel that already has exactly 8 options evicts
exactly the last option and appends the projection of the new entry at
the end, leaving exactly 8 options. -/
theorem addRestaurantToWheel_full (opts : List WheelOption) (r : Restaurant)
    (h : opts.length = 8) :
    addRestaurantToWheel opts r = opts.dropLast ++ [wheelProj r] ∧
    (addRestaurantToWheel opts r).length = 8 := by
  have h8 : opts.length ≥ 8 := h.ge
  constructor
  · simp [addRestaurantToWheel, if_pos h8]
  · simp only [addRestaurantToWheel, if_pos h8, List.length_append,
      List.length_dropLast, List.length_cons, List.length_nil]
    omega

/-- Witness for C7 at a concrete full wheel. -/
theorem addRestaurantToWheel_full_w :
    addRestaurantToWheel fullWheel sampleRestaurantA =
      fullWheel.dropLast ++ [wheelProj sampleRestaurantA] ∧
    (addRestaurantToWheel fullWheel sampleRestaurantA).length = 8 :=
  addRestaurantToWheel_full fullWheel sampleRestaurantA (by decide)

/-- C8: appending a candidate and reading index 0 returns an entry whose
restaurant fields are exactly those of the candidate plus the one added
timestamp field, for every candidate, timestamp, and prior log state. -/
theorem saveToHistory_roundTrip (r : Restaurant) (ts : String)
    (hist : List HistoryEntry) :
    historyGet (saveToHistory r ts hist) 0 = some (mkHistoryEntry r ts) := by
  simp only [historyGet]
  rw [saveToHistory_eq_take, show (20 : Nat) = 19 + 1 from rfl, List.take_succ_cons]
  simp

/-- C9: for every positive search radius in miles, the radius in meters
passed to the query is the radius in miles times the constant 1609.34,
which as a rational is 160934 divided by 100. -/
theorem queryRadius_conversion (s : Settings) (_h : 0 < s.distance) :
    queryRadius s = s.distance * 1609.34 ∧ (1609.34 : Rat) = 160934 / 100 :=
  ⟨rfl, by norm_num⟩

/-- Witness for C9 at the default settings with the 0.5 mile radius. -/
theorem queryRadius_conversion_w :
    queryRadius defaultSettings = defaultSettings.distance * 1609.34 ∧
    (1609.34 : Rat) = 160934 / 100 :=
  queryRadius_conversion defaultSettings (by norm_num [defaultSettings])

/-- C10: adding to a wheel with fewer than 8 options evicts nothing:
the new projection is appended at the end after the unchanged existing
options, the wheel grows by exactly one, and stays within the bound 8. -/
theorem addRestaurantToWheel_not_full (opts : List WheelOption) (r : Restaurant)
    (h : opts.length < 8) :
    addRestaurantToWheel opts r = opts ++ [wheelProj r] ∧
    (addRestaurantToWheel opts r).length = opts.length + 1 ∧
    (addRestaurantToWheel opts r).length ≤ 8 := by
  have h8 : ¬ opts.length ≥ 8 := by omega
  refine ⟨by simp [addRestaurantToWheel, if_neg h8], ?_, ?_⟩
  · simp [addRestaurantToWheel, if_neg h8]
  · simp only [addRestaurantToWheel, if_neg h8, List.length_append]
    simp only [List.length_cons, List.length_nil]
    omega

/-- Witness for C10 at the empty wheel. -/
theorem addRestaurantToWheel_not_full_w :
    addRestaurantToWheel [] sampleRestaurantA =
      ([] : List WheelOption) ++ [wheelProj sampleRestaurantA] ∧
    (addRestaurantToWheel [] sampleRestaurantA).length =
      ([] : List WheelOption).length + 1 ∧
    (addRestaurantToWheel [] sampleRestaurantA).length ≤ 8 :=
  addRestaurantToWheel_not_full [] sampleRestaurantA (by decide)

end LunchLotto
